import Mathlib

/-!
Verification of the Joybus (N64/GameCube SI) sigrok protocol decoder.

The decoder under study is `src/joybus/pd.py` (the canonical, complete
variant; `src/si/pd.py` is a near-duplicate with the same bit
classification and byte assembly, and `src/pd.py` is an unfinished
sketch).  The decoder talks to the host (libsigrokdecode) only through
`self.wait(...)` calls, so the external sample source is embedded as a
`Wire`: the current sample position, the current line level, and the
strictly increasing list of future edge positions (samples at which the
level flips).  After the last listed edge the line is taken to hold its
final level.

The `wait` conditions used by the source are embedded as:
  * `waitEdge tgt`        — `self.wait({0:'r'})` / `self.wait({0:'f'})`
    (advance to the next edge whose new level is `tgt`; `none` models the
    end-of-capture exception raised by the host);
  * `waitEdgeOrSkip tgt n` — `self.wait([{0:edge},{'skip':n}])`; the match
    happens at the earlier of the next `tgt` edge and `pos + n` samples,
    and the returned Bool is the pin level at the matched sample, which is
    exactly what the Python code inspects (`si == 0` / `si == 1`) to
    decide which branch matched;
  * `waitHigh`            — `self.wait({0:'h'})`.

Annotations pushed by the `put_*` helpers are embedded as an explicit
list of `Event`s, and Python exceptions as explicit failure results
carrying the wire state, the events already emitted, and the message
string given to `raise Exception(...)`.
-/

namespace Joybus

/-- Embedded sample source: current sample index, current line level, and
the positions of the future level flips, in increasing order. -/
structure Wire where
  pos : Nat
  level : Bool
  edges : List Nat
deriving DecidableEq, Repr

/-- Auxiliary loop for the edge-wait: walk the edge list until an edge
whose new level is `tgt`; `none` when the capture is exhausted. -/
def waitEdgeAux (tgt : Bool) : Bool → List Nat → Option Wire
  | _, [] => none
  | lvl, e :: rest =>
    if (!lvl) = tgt then some ⟨e, !lvl, rest⟩ else waitEdgeAux tgt (!lvl) rest

/-- Embedding of `self.wait({0:'r'})` (`tgt = true`) and
`self.wait({0:'f'})` (`tgt = false`). -/
def waitEdge (tgt : Bool) (s : Wire) : Option Wire :=
  waitEdgeAux tgt s.level s.edges

/-- Embedding of `self.wait({0:'h'})`: match immediately when the line is
already high, otherwise advance to the next rising edge. -/
def waitHigh (s : Wire) : Option Wire :=
  if s.level then some s else waitEdge true s

/-- Auxiliary loop for the edge-or-skip wait. `deadline` is the absolute
sample position at which the skip branch matches; an edge at a position
`≤ deadline` that flips the line to `tgt` matches first (at the deadline
sample itself the edge still wins, and the pin then reads the new level,
which is how the Python `si == 0/1` test distinguishes the branches).
Returns the wire after the match and the pin level at the match. -/
def waitEdgeOrSkipAux (tgt : Bool) (deadline : Nat) : Bool → List Nat → Wire × Bool
  | lvl, [] => (⟨deadline, lvl, []⟩, lvl)
  | lvl, e :: rest =>
    if deadline < e then (⟨deadline, lvl, e :: rest⟩, lvl)
    else if (!lvl) = tgt then (⟨e, !lvl, rest⟩, !lvl)
    else waitEdgeOrSkipAux tgt deadline (!lvl) rest

/-- Embedding of `self.wait([{0:edge}, {'skip': n}])`. -/
def waitEdgeOrSkip (tgt : Bool) (n : Nat) (s : Wire) : Wire × Bool :=
  waitEdgeOrSkipAux tgt (s.pos + n) s.level s.edges

/-- Annotation events pushed through `self.put(...)`, with their
`[start_sample, end_sample)` spans.  `command` carries the opcode and the
display name computed by `put_command`. -/
inductive Event
  | command (ss es : Nat) (opcode : Nat) (name : String)
  | commandData (ss es : Nat) (value : Nat)
  | responseData (ss es : Nat) (value : Nat)
  | bit (ss es : Nat) (value : Nat)
  | stopBit (ss es : Nat)
  | error (ss es : Nat) (msg : String)
deriving DecidableEq, Repr

/-- Entry of the `JOYBUS_COMMANDS` dict (name, command_len, response_len). -/
structure CommandSpec where
  name : String
  command_len : Nat
  response_len : Nat
deriving DecidableEq, Repr

/-- The `JOYBUS_COMMANDS` table from `src/joybus/pd.py`, as the
association list written in the source. -/
def JOYBUS_COMMANDS : List (Nat × CommandSpec) :=
  [ (0x00, ⟨"Info", 1, 3⟩),
    (0x01, ⟨"Controller State", 1, 4⟩),
    (0x02, ⟨"Read Accessory", 3, 33⟩),
    (0x03, ⟨"Write Accessory", 35, 1⟩),
    (0x04, ⟨"Read EEPROM", 2, 8⟩),
    (0x05, ⟨"Write EEPROM", 10, 1⟩),
    (0x14, ⟨"Read GBA", 3, 33⟩),
    (0x15, ⟨"Write GBA", 35, 1⟩),
    (0x40, ⟨"Short Poll", 3, 8⟩),
    (0x41, ⟨"Read Origin", 1, 10⟩),
    (0x42, ⟨"Calibrate", 3, 10⟩),
    (0x43, ⟨"Long Poll", 3, 10⟩),
    (0x4E, ⟨"Fix Device", 3, 3⟩),
    (0x54, ⟨"Keyboard Poll", 3, 8⟩),
    (0xFF, ⟨"Reset", 1, 3⟩) ]

/-- Dict lookup `JOYBUS_COMMANDS[command]` / membership test
`command in JOYBUS_COMMANDS`. -/
def lookupCommand (c : Nat) : Option CommandSpec :=
  JOYBUS_COMMANDS.lookup c

/-- The timing constants computed by `Decoder.metadata`, all in samples. -/
structure Timing where
  idle_min_samples : Nat
  bit_midpoint_samples : Nat
  bit_command_samples : Nat
  bit_response_samples : Nat
  bit_timeout_samples : Nat
  response_timeout_samples : Nat
deriving DecidableEq, Repr

/-- Embedding of the local helper `us_to_samples(us)`:
`math.floor(samplerate / 1000000 * us)`, computed here in exact integer
arithmetic with the microsecond argument scaled to tenths of a
microsecond (so that the source's `2.5` is the integer 25). -/
def us_to_samples (samplerate : Nat) (us_tenths : Nat) : Nat :=
  samplerate * us_tenths / 10000000

/-- The six timing constants `metadata` derives from the sample rate:
idle 100µs, bit midpoint 2.5µs, command stop-bit width 5µs, response
stop-bit width 4µs, bit timeout 10µs, response timeout 50µs. -/
def timingFor (samplerate : Nat) : Timing :=
  { idle_min_samples := us_to_samples samplerate 1000
    bit_midpoint_samples := us_to_samples samplerate 25
    bit_command_samples := us_to_samples samplerate 50
    bit_response_samples := us_to_samples samplerate 40
    bit_timeout_samples := us_to_samples samplerate 100
    response_timeout_samples := us_to_samples samplerate 500 }

/-- Result of one of the decoder's reading helpers: the wire afterwards,
the annotation events emitted along the way, and either a value or the
message of the Python exception raised. -/
inductive ReadResult (α : Type)
  | ok (s : Wire) (evs : List Event) (val : α)
  | fail (s : Wire) (evs : List Event) (msg : String)
deriving DecidableEq, Repr

/-- Two-digit uppercase hex rendering of a byte, as `f"0x{c:02X}"` does
(without the `0x` prefix). -/
def hexByte (n : Nat) : String :=
  let digit : Nat → Char := fun d => if d < 10 then Char.ofNat (48 + d) else Char.ofNat (55 + d)
  String.mk [digit (n / 16 % 16), digit (n % 16)]

/-- The display name `put_command` resolves for an opcode: the table name
when present, otherwise the raw hex value. -/
def command_name (c : Nat) : String :=
  match lookupCommand c with
  | some spec => spec.name
  | none => "0x" ++ hexByte c

/-- Embedding of `Decoder.read_bit`: wait (rising edge or bit timeout),
classify the measured low-pulse duration against the midpoint, wait
(falling edge or bit timeout), and emit the bit annotation. -/
def read_bit (t : Timing) (s : Wire) : ReadResult Nat :=
  let bit_start := s.pos
  let w1 := waitEdgeOrSkip true t.bit_timeout_samples s
  if w1.2 = false then .fail w1.1 [] "Bit timeout"
  else
    let low_duration := w1.1.pos - bit_start
    let bit_value := if low_duration > t.bit_midpoint_samples then 0 else 1
    let w2 := waitEdgeOrSkip false t.bit_timeout_samples w1.1
    if w2.2 = true then .fail w2.1 [] "Bit timeout"
    else .ok w2.1 [Event.bit bit_start w2.1.pos bit_value] bit_value

/-- The 8-iteration loop body of `Decoder.read_byte`, accumulating
`byte_value = (byte_value << 1) | bit_value`. -/
def read_bits (t : Timing) : Nat → Wire → Nat → ReadResult Nat
  | 0, s, acc => .ok s [] acc
  | n + 1, s, acc =>
    match read_bit t s with
    | .fail s' evs msg => .fail s' evs msg
    | .ok s' evs b =>
      match read_bits t n s' ((acc <<< 1) ||| b) with
      | .fail s'' evs' msg => .fail s'' (evs ++ evs') msg
      | .ok s'' evs' v => .ok s'' (evs ++ evs') v

/-- Embedding of `Decoder.read_byte`: remember the starting sample, read
8 bits MSB first, return `(byte_start, byte_value)`. -/
def read_byte (t : Timing) (s : Wire) : ReadResult (Nat × Nat) :=
  let byte_start := s.pos
  match read_bits t 8 s 0 with
  | .fail s' evs msg => .fail s' evs msg
  | .ok s' evs v => .ok s' evs (byte_start, v)

/-- Embedding of `Decoder.read_stop_bit`: wait for the rising edge that
ends the stop bit's low phase, then annotate either up to the current
sample (`width is None`) or up to `stop_start + width`. -/
def read_stop_bit (width : Option Nat) (s : Wire) : ReadResult Unit :=
  let stop_start := s.pos
  match waitEdge true s with
  | none => .fail s [] "EOF"
  | some s' =>
    match width with
    | none => .ok s' [Event.stopBit stop_start s'.pos] ()
    | some w => .ok s' [Event.stopBit stop_start (stop_start + w)] ()

/-- Helper loop of the COMMAND state: the `for _ in range(1, command_len)`
loop that reads `n` command-data bytes, annotating each with
`put_command_data(start, self.samplenum, byte)`. -/
def read_command_data (t : Timing) : Nat → Wire → ReadResult Unit
  | 0, s => .ok s [] ()
  | n + 1, s =>
    match read_byte t s with
    | .fail s' evs msg => .fail s' evs msg
    | .ok s' evs p =>
      match read_command_data t n s' with
      | .fail s'' evs' msg =>
        .fail s'' (evs ++ [Event.commandData p.1 s'.pos p.2] ++ evs') msg
      | .ok s'' evs' _ =>
        .ok s'' (evs ++ [Event.commandData p.1 s'.pos p.2] ++ evs') ()

/-- Helper loop of the COMMAND state: the `for _ in range(response_len)`
loop that reads `n` response bytes, annotating each with
`put_response_data(start, self.samplenum, byte)`. -/
def read_response_data (t : Timing) : Nat → Wire → ReadResult Unit
  | 0, s => .ok s [] ()
  | n + 1, s =>
    match read_byte t s with
    | .fail s' evs msg => .fail s' evs msg
    | .ok s' evs p =>
      match read_response_data t n s' with
      | .fail s'' evs' msg =>
        .fail s'' (evs ++ [Event.responseData p.1 s'.pos p.2] ++ evs') msg
      | .ok s'' evs' _ =>
        .ok s'' (evs ++ [Event.responseData p.1 s'.pos p.2] ++ evs') ()

/-- The body of the `try:` block of the COMMAND state of `Decoder.decode`:
read the opcode byte, emit the command annotation, reject opcodes missing
from the table, read the remaining command bytes, the command stop bit,
wait (falling edge or response timeout) for the response, read the
response bytes and the response stop bit.  A `fail` result is the Python
exception reaching the `except` handler, carrying the annotations already
emitted before the raise. -/
def process_frame (t : Timing) (s : Wire) : ReadResult Unit :=
  match read_byte t s with
  | .fail s1 evs msg => .fail s1 evs msg
  | .ok s1 evs1 p =>
    let cmdEv := Event.command p.1 s1.pos p.2 (command_name p.2)
    match lookupCommand p.2 with
    | none => .fail s1 (evs1 ++ [cmdEv]) "Unknown command"
    | some spec =>
      match read_command_data t (spec.command_len - 1) s1 with
      | .fail s2 evs2 msg => .fail s2 (evs1 ++ [cmdEv] ++ evs2) msg
      | .ok s2 evs2 _ =>
        match read_stop_bit (some t.bit_command_samples) s2 with
        | .fail s3 evs3 msg => .fail s3 (evs1 ++ [cmdEv] ++ evs2 ++ evs3) msg
        | .ok s3 evs3 _ =>
          let w := waitEdgeOrSkip false t.response_timeout_samples s3
          if w.2 = true then
            .fail w.1 (evs1 ++ [cmdEv] ++ evs2 ++ evs3) "Response timeout"
          else
            match read_response_data t spec.response_len w.1 with
            | .fail s4 evs4 msg =>
              .fail s4 (evs1 ++ [cmdEv] ++ evs2 ++ evs3 ++ evs4) msg
            | .ok s4 evs4 _ =>
              match read_stop_bit (some t.bit_response_samples) s4 with
              | .fail s5 evs5 msg =>
                .fail s5 (evs1 ++ [cmdEv] ++ evs2 ++ evs3 ++ evs4 ++ evs5) msg
              | .ok s5 evs5 _ =>
                .ok s5 (evs1 ++ [cmdEv] ++ evs2 ++ evs3 ++ evs4 ++ evs5) ()

/-- The `self.state` values of the decoder. -/
inductive State
  | INITIAL
  | IDLE
  | COMMAND
deriving DecidableEq, Repr

/-- Mutable state of the `while True:` decode loop: the state string and
the wire cursor. -/
structure DecState where
  state : State
  stream : Wire
deriving DecidableEq, Repr

/-- One iteration of the `while True:` loop of `Decoder.decode`.  `none`
models the host's end-of-capture exception escaping the loop (it can only
escape from the INITIAL and IDLE waits; inside the COMMAND state every
exception is caught by the `except` handler).  Otherwise returns the next
state and the annotations emitted during the iteration. -/
def decodeStep (t : Timing) (d : DecState) : Option (DecState × List Event) :=
  match d.state with
  | .INITIAL =>
    match waitHigh d.stream with
    | none => none
    | some s1 =>
      let w := waitEdgeOrSkip false t.idle_min_samples s1
      if w.2 = true then some (⟨.IDLE, w.1⟩, [])
      else some (⟨.INITIAL, w.1⟩, [])
  | .IDLE =>
    match waitEdge false d.stream with
    | none => none
    | some s1 => some (⟨.COMMAND, s1⟩, [])
  | .COMMAND =>
    let command_start := d.stream.pos
    match process_frame t d.stream with
    | .ok s' evs _ => some (⟨.IDLE, s'⟩, evs)
    | .fail s' evs msg =>
      some (⟨.INITIAL, s'⟩, evs ++ [Event.error command_start s'.pos msg])

/-- Run `n` iterations of the decode loop, collecting the annotations in
emission order; stops early at end of capture. -/
def decodeRun (t : Timing) : Nat → DecState → DecState × List Event
  | 0, d => (d, [])
  | n + 1, d =>
    match decodeStep t d with
    | none => (d, [])
    | some (d', evs) =>
      let r := decodeRun t n d'
      (r.1, evs ++ r.2)

/-- Entry guard of `Decoder.decode`: `if not self.samplerate: raise`.
The sample rate is `none` when `metadata` was never called and `some 0`
when it was configured as zero; both are falsy in Python.  When the guard
passes, the loop runs (here for `fuel` iterations). -/
def decode (samplerate : Option Nat) (t : Timing) (fuel : Nat) (d : DecState) :
    Except String (DecState × List Event) :=
  match samplerate with
  | none => .error "Cannot decode without samplerate."
  | some 0 => .error "Cannot decode without samplerate."
  | some _ => .ok (decodeRun t fuel d)

/-- The key `srd.SRD_CONF_SAMPLERATE` that the host passes to
`Decoder.metadata`; its concrete value is host-defined and irrelevant. -/
def SRD_CONF_SAMPLERATE : Nat := 10000

/-- The instance attributes of the `Decoder` object touched by `reset`
and `metadata`: the state, the configured sample rate, and the derived
timing constants (absent until `metadata` first runs). -/
structure DecoderVars where
  state : State
  samplerate : Option Nat
  timing : Option Timing
deriving DecidableEq, Repr

/-- Embedding of `Decoder.reset`: sets `self.state = "INITIAL"`. -/
def reset (d : DecoderVars) : DecoderVars :=
  { d with state := State.INITIAL }

/-- Embedding of `Decoder.metadata`: on the samplerate key, store the
sample rate and recompute the six derived timing constants; nothing else
is touched. -/
def metadata (d : DecoderVars) (key : Nat) (value : Nat) : DecoderVars :=
  if key = SRD_CONF_SAMPLERATE then
    { d with samplerate := some value, timing := some (timingFor value) }
  else d

/-!  Test vectors.  The definitions below are not part of the embedding:
they build concrete well-formed waveforms for the 1 MHz timing profile
(`timingFor 1000000`: midpoint 2, stop widths 5/4, bit timeout 10,
response timeout 50, idle 100), used to state round-trip and frame-length
properties.  A 0 bit is encoded with a 3-sample low pulse (3 > midpoint)
and a 1 bit with a 1-sample low pulse, each followed by a 1-sample high
pulse ending at the falling edge that starts the next cell. -/

/-- The timing profile the test waveforms are built for (1 MHz). -/
def t0 : Timing := timingFor 1000000

/-- Low-pulse length used to encode bit `b` at 1 MHz. -/
def bit_low (b : Nat) : Nat :=
  if b = 0 then 3 else 1

/-- Sample position at which the cell of bit `b` starting at `pos` ends
(its closing falling edge). -/
def bitEnd (pos b : Nat) : Nat :=
  pos + bit_low b + 1

/-- Edge list of one encoded bit cell: rising edge after the low pulse,
falling edge one sample later. -/
def encodeBit (pos b : Nat) : List Nat :=
  [pos + bit_low b, bitEnd pos b]

/-- Edge list of a sequence of bit cells starting at `pos`. -/
def encodeBits (pos : Nat) : List Nat → List Nat
  | [] => []
  | b :: bs => encodeBit pos b ++ encodeBits (bitEnd pos b) bs

/-- End position of a sequence of encoded bit cells. -/
def bitsEnd (pos : Nat) : List Nat → Nat
  | [] => pos
  | b :: bs => bitsEnd (bitEnd pos b) bs

/-- The bit annotations `read_bit` emits over a sequence of encoded
cells. -/
def bitEvents (pos : Nat) : List Nat → List Event
  | [] => []
  | b :: bs => Event.bit pos (bitEnd pos b) b :: bitEvents (bitEnd pos b) bs

/-- The 8 bits of a byte value, most significant first. -/
def bitsOfByte (v : Nat) : List Nat :=
  [v / 128 % 2, v / 64 % 2, v / 32 % 2, v / 16 % 2, v / 8 % 2, v / 4 % 2, v / 2 % 2, v % 2]

/-- Edge list of one encoded byte (8 MSB-first bit cells). -/
def encodeByte (pos v : Nat) : List Nat :=
  encodeBits pos (bitsOfByte v)

/-- End position of one encoded byte. -/
def byteEnd (pos v : Nat) : Nat :=
  bitsEnd pos (bitsOfByte v)

/-- Edge list of a sequence of encoded bytes. -/
def encodeBytes (pos : Nat) : List Nat → List Nat
  | [] => []
  | v :: vs => encodeByte pos v ++ encodeBytes (byteEnd pos v) vs

/-- End position of a sequence of encoded bytes. -/
def bytesEnd (pos : Nat) : List Nat → Nat
  | [] => pos
  | v :: vs => bytesEnd (byteEnd pos v) vs

/-- Edge list of a full well-formed frame starting at `pos` with the line
just fallen: the command bytes, a stop bit (1-sample low, rising edge),
the response's opening falling edge 2 samples later (within the 50-sample
response timeout), the response bytes, and the response stop bit. -/
def encodeFrame (pos : Nat) (cmdBytes respBytes : List Nat) : List Nat :=
  let p1 := bytesEnd pos cmdBytes
  let p2 := p1 + 1
  let p3 := p2 + 2
  let p4 := bytesEnd p3 respBytes
  encodeBytes pos cmdBytes ++ [p1 + 1] ++ [p2 + 2] ++ encodeBytes p3 respBytes ++ [p4 + 1]

/-- End position of an encoded frame (its final rising edge). -/
def frameEnd (pos : Nat) (cmdBytes respBytes : List Nat) : Nat :=
  bytesEnd (bytesEnd pos cmdBytes + 3) respBytes + 1

/-- Recognizer for `command` events. -/
def isCommandEv : Event → Bool
  | .command .. => true
  | _ => false

/-- Recognizer for `commandData` events. -/
def isCommandDataEv : Event → Bool
  | .commandData .. => true
  | _ => false

/-- Recognizer for `responseData` events. -/
def isResponseDataEv : Event → Bool
  | .responseData .. => true
  | _ => false

/-- Recognizer for `stopBit` events. -/
def isStopBitEv : Event → Bool
  | .stopBit .. => true
  | _ => false

/-- Recognizer for `error` events. -/
def isErrorEv : Event → Bool
  | .error .. => true
  | _ => false

/-- The MSB-first accumulation `read_bits` performs, as a list fold. -/
def foldBits (acc : Nat) (bs : List Nat) : Nat :=
  bs.foldl (fun a b => (a <<< 1) ||| b) acc

/-- The annotations the command-data loop emits over a run of encoded
bytes: each byte's bit annotations followed by its `commandData`
annotation. -/
def cmdDataEvents (pos : Nat) : List Nat → List Event
  | [] => []
  | v :: vs =>
    bitEvents pos (bitsOfByte v) ++ [Event.commandData pos (byteEnd pos v) v]
      ++ cmdDataEvents (byteEnd pos v) vs

/-- The annotations the response loop emits over a run of encoded bytes:
each byte's bit annotations followed by its `responseData` annotation. -/
def respDataEvents (pos : Nat) : List Nat → List Event
  | [] => []
  | v :: vs =>
    bitEvents pos (bitsOfByte v) ++ [Event.responseData pos (byteEnd pos v) v]
      ++ respDataEvents (byteEnd pos v) vs

/-- The full annotation sequence of one well-formed frame, in emission
order: the opcode's bits, the command annotation, the command-data
bytes, the command stop bit, the response bytes, the response stop
bit. -/
def frameEvents (pos c : Nat) (cmdData respData : List Nat) : List Event :=
  let q := byteEnd pos c
  let p1 := bytesEnd q cmdData
  let p3 := p1 + 3
  let p4 := bytesEnd p3 respData
  bitEvents pos (bitsOfByte c)
    ++ [Event.command pos q c (command_name c)]
    ++ cmdDataEvents q cmdData
    ++ [Event.stopBit p1 (p1 + t0.bit_command_samples)]
    ++ respDataEvents p3 respData
    ++ [Event.stopBit p4 (p4 + t0.bit_response_samples)]

/-- The annotation list of a reading result, successful or not. -/
def ReadResult.events {α : Type} : ReadResult α → List Event
  | .ok _ evs _ => evs
  | .fail _ evs _ => evs

/-! Helper lemmas: single-step characterizations of the wait primitives
and of the readers on encoded cells. -/

theorem waitAux_skip (tgt : Bool) (dl : Nat) (lvl : Bool) (e : Nat) (rest : List Nat)
    (h : dl < e) :
    waitEdgeOrSkipAux tgt dl lvl (e :: rest) = (⟨dl, lvl, e :: rest⟩, lvl) := by
  simp [waitEdgeOrSkipAux, h]

theorem waitAux_edge (tgt : Bool) (dl : Nat) (lvl : Bool) (e : Nat) (rest : List Nat)
    (h : ¬ dl < e) (ht : (!lvl) = tgt) :
    waitEdgeOrSkipAux tgt dl lvl (e :: rest) = (⟨e, !lvl, rest⟩, !lvl) := by
  simp [waitEdgeOrSkipAux, h, ht]

theorem waitEdgeAux_match (tgt : Bool) (lvl : Bool) (e : Nat) (rest : List Nat)
    (ht : (!lvl) = tgt) :
    waitEdgeAux tgt lvl (e :: rest) = some ⟨e, !lvl, rest⟩ := by
  simp [waitEdgeAux, ht]

theorem waitEdgeAux_pass (tgt : Bool) (lvl : Bool) (e : Nat) (rest : List Nat)
    (ht : ¬ (!lvl) = tgt) :
    waitEdgeAux tgt lvl (e :: rest) = waitEdgeAux tgt (!lvl) rest := by
  simp [waitEdgeAux, ht]

/-- Reading one encoded bit cell: succeeds, consumes exactly the cell,
emits the one bit annotation, and returns the encoded bit. -/
theorem read_bit_encodeBit (pos b : Nat) (hb : b ≤ 1) (rest : List Nat) :
    read_bit t0 ⟨pos, false, encodeBit pos b ++ rest⟩ =
      .ok ⟨bitEnd pos b, false, rest⟩ [Event.bit pos (bitEnd pos b) b] b := by
  interval_cases b <;>
    simp [read_bit, waitEdgeOrSkip, encodeBit, bit_low, bitEnd, t0, timingFor,
      us_to_samples, waitAux_edge, waitEdgeOrSkipAux, Nat.add_assoc]

/-- Reading a sequence of encoded bit cells: succeeds, consumes exactly
the cells, emits one bit annotation per cell, and accumulates MSB
first. -/
theorem read_bits_encodeBits (bs : List Nat) (hb : ∀ b ∈ bs, b ≤ 1) :
    ∀ (pos acc : Nat) (rest : List Nat),
      read_bits t0 bs.length ⟨pos, false, encodeBits pos bs ++ rest⟩ acc =
        .ok ⟨bitsEnd pos bs, false, rest⟩ (bitEvents pos bs) (foldBits acc bs) := by
  induction bs with
  | nil => intro pos acc rest; simp [read_bits, encodeBits, bitsEnd, bitEvents, foldBits]
  | cons b bs ih =>
    intro pos acc rest
    have hb0 : b ≤ 1 := hb b (List.mem_cons_self b bs)
    have hbs : ∀ x ∈ bs, x ≤ 1 := fun x hx => hb x (List.mem_cons_of_mem b hx)
    rw [List.length_cons]
    show read_bits t0 (bs.length + 1) _ acc = _
    rw [read_bits]
    rw [show encodeBits pos (b :: bs) ++ rest =
          encodeBit pos b ++ (encodeBits (bitEnd pos b) bs ++ rest) by
        simp [encodeBits, List.append_assoc]]
    rw [read_bit_encodeBit pos b hb0]
    dsimp only
    rw [ih hbs (bitEnd pos b) ((acc <<< 1) ||| b) rest]
    simp [bitsEnd, bitEvents, foldBits]

/-- Every entry of `bitsOfByte` is a bit. -/
theorem bitsOfByte_le_one (v : Nat) : ∀ b ∈ bitsOfByte v, b ≤ 1 := by
  intro b hb
  simp only [bitsOfByte, List.mem_cons, List.not_mem_nil, or_false] at hb
  rcases hb with h | h | h | h | h | h | h | h <;>
    (subst h; exact Nat.le_of_lt_succ (Nat.mod_lt _ (by norm_num)))

/-- `bitsOfByte` produces 8 bits. -/
theorem bitsOfByte_length (v : Nat) : (bitsOfByte v).length = 8 := rfl

set_option maxRecDepth 4096 in
/-- MSB-first reassembly of the 8 bits of a byte value gives the value
back. -/
theorem foldBits_bitsOfByte : ∀ v < 256, foldBits 0 (bitsOfByte v) = v := by
  decide

/-- Reading one encoded byte: succeeds, consumes exactly the 8 cells,
emits the 8 bit annotations, and returns the starting sample and the
byte value. -/
theorem read_byte_encodeByte (pos v : Nat) (hv : v < 256) (rest : List Nat) :
    read_byte t0 ⟨pos, false, encodeByte pos v ++ rest⟩ =
      .ok ⟨byteEnd pos v, false, rest⟩ (bitEvents pos (bitsOfByte v)) (pos, v) := by
  have h8 : (8 : Nat) = (bitsOfByte v).length := rfl
  rw [read_byte]
  dsimp only
  rw [h8, encodeByte,
    read_bits_encodeBits (bitsOfByte v) (bitsOfByte_le_one v) pos 0 rest,
    foldBits_bitsOfByte v hv]
  rfl

/-- Reading a run of encoded bytes with the command-data loop: one
`commandData` annotation per byte, after that byte's bit annotations. -/
theorem read_command_data_encodeBytes (vs : List Nat) (hv : ∀ v ∈ vs, v < 256) :
    ∀ (pos : Nat) (rest : List Nat),
      read_command_data t0 vs.length ⟨pos, false, encodeBytes pos vs ++ rest⟩ =
        .ok ⟨bytesEnd pos vs, false, rest⟩ (cmdDataEvents pos vs) () := by
  induction vs with
  | nil => intro pos rest; simp [read_command_data, encodeBytes, bytesEnd, cmdDataEvents]
  | cons v vs ih =>
    intro pos rest
    have hv0 : v < 256 := hv v (List.mem_cons_self v vs)
    have hvs : ∀ x ∈ vs, x < 256 := fun x hx => hv x (List.mem_cons_of_mem v hx)
    rw [List.length_cons]
    show read_command_data t0 (vs.length + 1) _ = _
    rw [read_command_data]
    rw [show encodeBytes pos (v :: vs) ++ rest =
          encodeByte pos v ++ (encodeBytes (byteEnd pos v) vs ++ rest) by
        simp [encodeBytes, List.append_assoc]]
    rw [read_byte_encodeByte pos v hv0]
    dsimp only
    rw [ih hvs (byteEnd pos v) rest]
    simp [bytesEnd, cmdDataEvents, List.append_assoc]

/-- Reading a run of encoded bytes with the response loop: one
`responseData` annotation per byte, after that byte's bit annotations. -/
theorem read_response_data_encodeBytes (vs : List Nat) (hv : ∀ v ∈ vs, v < 256) :
    ∀ (pos : Nat) (rest : List Nat),
      read_response_data t0 vs.length ⟨pos, false, encodeBytes pos vs ++ rest⟩ =
        .ok ⟨bytesEnd pos vs, false, rest⟩ (respDataEvents pos vs) () := by
  induction vs with
  | nil => intro pos rest; simp [read_response_data, encodeBytes, bytesEnd, respDataEvents]
  | cons v vs ih =>
    intro pos rest
    have hv0 : v < 256 := hv v (List.mem_cons_self v vs)
    have hvs : ∀ x ∈ vs, x < 256 := fun x hx => hv x (List.mem_cons_of_mem v hx)
    rw [List.length_cons]
    show read_response_data t0 (vs.length + 1) _ = _
    rw [read_response_data]
    rw [show encodeBytes pos (v :: vs) ++ rest =
          encodeByte pos v ++ (encodeBytes (byteEnd pos v) vs ++ rest) by
        simp [encodeBytes, List.append_assoc]]
    rw [read_byte_encodeByte pos v hv0]
    dsimp only
    rw [ih hvs (byteEnd pos v) rest]
    simp [bytesEnd, respDataEvents, List.append_assoc]

/-- Reading a stop bit whose low phase ends with a rising edge one sample
after `pos`. -/
theorem read_stop_bit_edge (w pos : Nat) (rest : List Nat) :
    read_stop_bit (some w) ⟨pos, false, (pos + 1) :: rest⟩ =
      .ok ⟨pos + 1, true, rest⟩ [Event.stopBit pos (pos + w)] () := by
  simp [read_stop_bit, waitEdge, waitEdgeAux]

/-- Processing one well-formed encoded frame for a table opcode:
succeeds, consumes exactly the frame, and emits `frameEvents`. -/
theorem process_frame_encodeFrame (c : Nat) (spec : CommandSpec)
    (hc : lookupCommand c = some spec) (hc256 : c < 256)
    (cmdData respData : List Nat)
    (hlen1 : cmdData.length = spec.command_len - 1)
    (hlen2 : respData.length = spec.response_len)
    (hcd : ∀ v ∈ cmdData, v < 256) (hrd : ∀ v ∈ respData, v < 256)
    (pos : Nat) (rest : List Nat) :
    process_frame t0 ⟨pos, false, encodeFrame pos (c :: cmdData) respData ++ rest⟩ =
      .ok ⟨frameEnd pos (c :: cmdData) respData, true, rest⟩
        (frameEvents pos c cmdData respData) () := by
  have hq : bytesEnd pos (c :: cmdData) = bytesEnd (byteEnd pos c) cmdData := rfl
  rw [process_frame]
  rw [show encodeFrame pos (c :: cmdData) respData ++ rest =
        encodeByte pos c ++
          (encodeBytes (byteEnd pos c) cmdData ++
            ((bytesEnd (byteEnd pos c) cmdData + 1) ::
              ((bytesEnd (byteEnd pos c) cmdData + 1 + 2) ::
                (encodeBytes (bytesEnd (byteEnd pos c) cmdData + 1 + 2) respData ++
                  ((bytesEnd (bytesEnd (byteEnd pos c) cmdData + 1 + 2) respData + 1) ::
                    rest))))) by
      simp [encodeFrame, encodeBytes, hq, List.append_assoc]]
  rw [read_byte_encodeByte pos c hc256]
  dsimp only
  rw [hc]
  dsimp only
  rw [← hlen1, read_command_data_encodeBytes cmdData hcd (byteEnd pos c)]
  dsimp only
  rw [read_stop_bit_edge]
  dsimp only
  rw [show waitEdgeOrSkip false t0.response_timeout_samples
        ⟨bytesEnd (byteEnd pos c) cmdData + 1, true,
          (bytesEnd (byteEnd pos c) cmdData + 1 + 2) ::
            (encodeBytes (bytesEnd (byteEnd pos c) cmdData + 1 + 2) respData ++
              ((bytesEnd (bytesEnd (byteEnd pos c) cmdData + 1 + 2) respData + 1) :: rest))⟩ =
        (⟨bytesEnd (byteEnd pos c) cmdData + 1 + 2, false,
          encodeBytes (bytesEnd (byteEnd pos c) cmdData + 1 + 2) respData ++
            ((bytesEnd (bytesEnd (byteEnd pos c) cmdData + 1 + 2) respData + 1) :: rest)⟩,
          false) by
      rw [waitEdgeOrSkip]
      exact waitAux_edge false _ true _ _
        (by simp only [t0, timingFor, us_to_samples]; omega) rfl]
  dsimp only
  rw [← hlen2, read_response_data_encodeBytes respData hrd]
  dsimp only
  rw [read_stop_bit_edge]
  dsimp only
  simp [frameEvents, frameEnd, hq, List.append_assoc]

/-! Counting lemmas for the annotation lists. -/

theorem countP_bitEvents (p : Event → Bool) (hbit : ∀ a b c, p (.bit a b c) = false) :
    ∀ (bs : List Nat) (pos : Nat), (bitEvents pos bs).countP p = 0 := by
  intro bs
  induction bs with
  | nil => intro pos; simp [bitEvents]
  | cons b bs ih =>
    intro pos
    simp [bitEvents, List.countP_cons, hbit, ih]

theorem countP_cmdDataEvents (p : Event → Bool) (q : Bool)
    (hbit : ∀ a b c, p (.bit a b c) = false)
    (hcd : ∀ a b c, p (.commandData a b c) = q) :
    ∀ (vs : List Nat) (pos : Nat),
      (cmdDataEvents pos vs).countP p = if q then vs.length else 0 := by
  intro vs
  induction vs with
  | nil => intro pos; simp [cmdDataEvents]
  | cons v vs ih =>
    intro pos
    simp only [cmdDataEvents, List.countP_append, countP_bitEvents p hbit, ih,
      List.countP_cons, List.countP_nil, List.length_cons, hcd]
    cases q <;> simp [Nat.add_comm]

theorem countP_respDataEvents (p : Event → Bool) (q : Bool)
    (hbit : ∀ a b c, p (.bit a b c) = false)
    (hrd : ∀ a b c, p (.responseData a b c) = q) :
    ∀ (vs : List Nat) (pos : Nat),
      (respDataEvents pos vs).countP p = if q then vs.length else 0 := by
  intro vs
  induction vs with
  | nil => intro pos; simp [respDataEvents]
  | cons v vs ih =>
    intro pos
    simp only [respDataEvents, List.countP_append, countP_bitEvents p hbit, ih,
      List.countP_cons, List.countP_nil, List.length_cons, hrd]
    cases q <;> simp [Nat.add_comm]

/-- Event counts of a well-formed frame's annotations: one command, one
commandData per command-data byte, one responseData per response byte,
two stop bits, no error. -/
theorem frameEvents_counts (pos c : Nat) (cmdData respData : List Nat) :
    (frameEvents pos c cmdData respData).countP isCommandEv = 1 ∧
    (frameEvents pos c cmdData respData).countP isCommandDataEv = cmdData.length ∧
    (frameEvents pos c cmdData respData).countP isResponseDataEv = respData.length ∧
    (frameEvents pos c cmdData respData).countP isStopBitEv = 2 ∧
    (frameEvents pos c cmdData respData).countP isErrorEv = 0 := by
  refine ⟨?_, ?_, ?_, ?_, ?_⟩
  · simp [frameEvents, List.countP_append, List.countP_cons,
      countP_bitEvents isCommandEv (fun _ _ _ => rfl),
      countP_cmdDataEvents isCommandEv false (fun _ _ _ => rfl) (fun _ _ _ => rfl),
      countP_respDataEvents isCommandEv false (fun _ _ _ => rfl) (fun _ _ _ => rfl),
      isCommandEv]
  · simp [frameEvents, List.countP_append, List.countP_cons,
      countP_bitEvents isCommandDataEv (fun _ _ _ => rfl),
      countP_cmdDataEvents isCommandDataEv true (fun _ _ _ => rfl) (fun _ _ _ => rfl),
      countP_respDataEvents isCommandDataEv false (fun _ _ _ => rfl) (fun _ _ _ => rfl),
      isCommandDataEv]
  · simp [frameEvents, List.countP_append, List.countP_cons,
      countP_bitEvents isResponseDataEv (fun _ _ _ => rfl),
      countP_cmdDataEvents isResponseDataEv false (fun _ _ _ => rfl) (fun _ _ _ => rfl),
      countP_respDataEvents isResponseDataEv true (fun _ _ _ => rfl) (fun _ _ _ => rfl),
      isResponseDataEv]
  · simp [frameEvents, List.countP_append, List.countP_cons,
      countP_bitEvents isStopBitEv (fun _ _ _ => rfl),
      countP_cmdDataEvents isStopBitEv false (fun _ _ _ => rfl) (fun _ _ _ => rfl),
      countP_respDataEvents isStopBitEv false (fun _ _ _ => rfl) (fun _ _ _ => rfl),
      isStopBitEv]
  · simp [frameEvents, List.countP_append, List.countP_cons,
      countP_bitEvents isErrorEv (fun _ _ _ => rfl),
      countP_cmdDataEvents isErrorEv false (fun _ _ _ => rfl) (fun _ _ _ => rfl),
      countP_respDataEvents isErrorEv false (fun _ _ _ => rfl) (fun _ _ _ => rfl),
      isErrorEv]

/-- Every table entry is found again by `lookupCommand`, and every table
opcode is a byte value. -/
theorem table_lookup : ∀ p ∈ JOYBUS_COMMANDS, lookupCommand p.1 = some p.2 ∧ p.1 < 256 := by
  decide

/-- C2: for every opcode present in the command table, decoding one
well-formed frame (exactly `command_len` command bytes, a stop bit,
`response_len` response bytes, and a stop bit, all within the timing
bounds) produces exactly one `command` event, exactly `command_len - 1`
`commandData` events, exactly `response_len` `responseData` events,
exactly two `stopBit` events, and no `error` event, after which the
state machine is in IDLE. -/
theorem c2_frame_length_correctness :
    ∀ p ∈ JOYBUS_COMMANDS, ∀ (cmdData respData : List Nat) (pos : Nat) (rest : List Nat),
      cmdData.length = p.2.command_len - 1 →
      respData.length = p.2.response_len →
      (∀ v ∈ cmdData, v < 256) →
      (∀ v ∈ respData, v < 256) →
      ∃ s', decodeStep t0
          ⟨.COMMAND, ⟨pos, false, encodeFrame pos (p.1 :: cmdData) respData ++ rest⟩⟩ =
          some (⟨.IDLE, s'⟩, frameEvents pos p.1 cmdData respData) ∧
        (frameEvents pos p.1 cmdData respData).countP isCommandEv = 1 ∧
        (frameEvents pos p.1 cmdData respData).countP isCommandDataEv = p.2.command_len - 1 ∧
        (frameEvents pos p.1 cmdData respData).countP isResponseDataEv = p.2.response_len ∧
        (frameEvents pos p.1 cmdData respData).countP isStopBitEv = 2 ∧
        (frameEvents pos p.1 cmdData respData).countP isErrorEv = 0 := by
  intro p hp cmdData respData pos rest hlen1 hlen2 hcd hrd
  obtain ⟨hl, h256⟩ := table_lookup p hp
  refine ⟨⟨frameEnd pos (p.1 :: cmdData) respData, true, rest⟩, ?_, ?_, ?_, ?_, ?_, ?_⟩
  · simp only [decodeStep,
      process_frame_encodeFrame p.1 p.2 hl h256 cmdData respData hlen1 hlen2 hcd hrd pos rest]
  · exact (frameEvents_counts pos p.1 cmdData respData).1
  · rw [(frameEvents_counts pos p.1 cmdData respData).2.1, hlen1]
  · rw [(frameEvents_counts pos p.1 cmdData respData).2.2.1, hlen2]
  · exact (frameEvents_counts pos p.1 cmdData respData).2.2.2.1
  · exact (frameEvents_counts pos p.1 cmdData respData).2.2.2.2

/-- Witness for C2 at a concrete input: the Info command (opcode 0x00)
with response bytes 1, 2, 3. -/
theorem c2_witness :
    ∃ s', decodeStep t0
        ⟨.COMMAND, ⟨0, false, encodeFrame 0 (0x00 :: []) [1, 2, 3] ++ []⟩⟩ =
        some (⟨.IDLE, s'⟩, frameEvents 0 0x00 [] [1, 2, 3]) ∧
      (frameEvents 0 0x00 [] [1, 2, 3]).countP isCommandEv = 1 ∧
      (frameEvents 0 0x00 [] [1, 2, 3]).countP isCommandDataEv =
        (CommandSpec.mk "Info" 1 3).command_len - 1 ∧
      (frameEvents 0 0x00 [] [1, 2, 3]).countP isResponseDataEv =
        (CommandSpec.mk "Info" 1 3).response_len ∧
      (frameEvents 0 0x00 [] [1, 2, 3]).countP isStopBitEv = 2 ∧
      (frameEvents 0 0x00 [] [1, 2, 3]).countP isErrorEv = 0 :=
  c2_frame_length_correctness (0x00, CommandSpec.mk "Info" 1 3) (by decide)
    [] [1, 2, 3] 0 [] rfl rfl (by intro v hv; cases hv) (by decide)

/-- INITIAL state, line high: when the next falling edge comes strictly
after the idle deadline, the skip branch matches (pin still high) and the
decoder moves to IDLE at the deadline sample. -/
theorem decodeStep_initial_idle (t : Timing) (s : Wire) (f : Nat) (rest : List Nat)
    (hl : s.level = true) (he : s.edges = f :: rest)
    (h : s.pos + t.idle_min_samples < f) :
    decodeStep t ⟨.INITIAL, s⟩ =
      some (⟨.IDLE, ⟨s.pos + t.idle_min_samples, true, f :: rest⟩⟩, []) := by
  simp [decodeStep, waitHigh, hl, waitEdgeOrSkip, he, waitAux_skip _ _ _ _ _ h]

/-- INITIAL state, line high: when the falling edge comes at or before
the idle deadline, the edge branch matches (pin low) and the decoder
stays in INITIAL at the edge. -/
theorem decodeStep_initial_retry (t : Timing) (s : Wire) (f : Nat) (rest : List Nat)
    (hl : s.level = true) (he : s.edges = f :: rest)
    (h : ¬ s.pos + t.idle_min_samples < f) :
    decodeStep t ⟨.INITIAL, s⟩ = some (⟨.INITIAL, ⟨f, false, rest⟩⟩, []) := by
  simp [decodeStep, waitHigh, hl, waitEdgeOrSkip, he,
    waitAux_edge false (s.pos + t.idle_min_samples) true f rest h rfl]

/-- INITIAL state, line low: the decoder first waits for the line to go
high (the rising edge at `r`), and moves to IDLE when the next falling
edge is strictly beyond the idle deadline measured from `r`. -/
theorem decodeStep_initial_low_idle (t : Timing) (s : Wire) (r f : Nat) (rest : List Nat)
    (hl : s.level = false) (he : s.edges = r :: f :: rest)
    (h : r + t.idle_min_samples < f) :
    decodeStep t ⟨.INITIAL, s⟩ =
      some (⟨.IDLE, ⟨r + t.idle_min_samples, true, f :: rest⟩⟩, []) := by
  simp [decodeStep, waitHigh, hl, waitEdge, he, waitEdgeAux, waitEdgeOrSkip,
    waitAux_skip _ _ _ _ _ h]

/-- IDLE state: the next falling edge starts a new command. -/
theorem decodeStep_idle (t : Timing) (s : Wire) (f : Nat) (rest : List Nat)
    (hl : s.level = true) (he : s.edges = f :: rest) :
    decodeStep t ⟨.IDLE, s⟩ = some (⟨.COMMAND, ⟨f, false, rest⟩⟩, []) := by
  simp [decodeStep, waitEdge, hl, he, waitEdgeAux]

/-- COMMAND state on a frame whose opcode is not in the table: the
opcode byte is read and annotated with its raw hex name, then the
`Unknown command` exception is raised, annotated as an error, and the
decoder resynchronizes through INITIAL. -/
theorem process_frame_unknown (v : Nat) (hv : v < 256) (hl : lookupCommand v = none)
    (pos : Nat) (rest : List Nat) :
    process_frame t0 ⟨pos, false, encodeByte pos v ++ rest⟩ =
      .fail ⟨byteEnd pos v, false, rest⟩
        (bitEvents pos (bitsOfByte v) ++
          [Event.command pos (byteEnd pos v) v ("0x" ++ hexByte v)])
        "Unknown command" := by
  rw [process_frame, read_byte_encodeByte pos v hv]
  dsimp only
  rw [hl]
  simp [command_name, hl]

/-- Unfolding one iteration of `decodeRun` along a known step. -/
theorem decodeRun_succ_of (t : Timing) (n : Nat) (d d' dFin : DecState)
    (evs evs' : List Event) (h : decodeStep t d = some (d', evs))
    (hrec : decodeRun t n d' = (dFin, evs')) :
    decodeRun t (n + 1) d = (dFin, evs ++ evs') := by
  rw [decodeRun, h]
  dsimp only
  rw [hrec]

/-- C6: for every frame whose opcode byte is absent from the command
table, the decoder emits a `command` event naming the opcode by its raw
hex value, then raises the unknown-command failure so that exactly one
`error` event follows; after resynchronization through INITIAL (rising
edge at `r`, then a qualifying idle gap before the falling edge at `f`)
the next well-formed frame decodes correctly, ending in IDLE. -/
theorem c6_unknown_opcode_resync (v : Nat) (hv : v < 256)
    (hlv : lookupCommand v = none)
    (p : Nat × CommandSpec) (hp : p ∈ JOYBUS_COMMANDS)
    (cmdData respData : List Nat)
    (hlen1 : cmdData.length = p.2.command_len - 1)
    (hlen2 : respData.length = p.2.response_len)
    (hcd : ∀ x ∈ cmdData, x < 256) (hrd : ∀ x ∈ respData, x < 256)
    (pos r f : Nat) (rest : List Nat)
    (_hr : byteEnd pos v ≤ r)
    (hgap : r + t0.idle_min_samples < f) :
    ∃ sEnd,
      decodeRun t0 4
          ⟨.COMMAND, ⟨pos, false,
            encodeByte pos v ++
              r :: f :: (encodeFrame f (p.1 :: cmdData) respData ++ rest)⟩⟩ =
        (⟨.IDLE, sEnd⟩,
          bitEvents pos (bitsOfByte v) ++
            [Event.command pos (byteEnd pos v) v ("0x" ++ hexByte v),
             Event.error pos (byteEnd pos v) "Unknown command"] ++
            frameEvents f p.1 cmdData respData) ∧
      (bitEvents pos (bitsOfByte v) ++
            [Event.command pos (byteEnd pos v) v ("0x" ++ hexByte v),
             Event.error pos (byteEnd pos v) "Unknown command"] ++
            frameEvents f p.1 cmdData respData).countP isErrorEv = 1 ∧
      (bitEvents pos (bitsOfByte v) ++
            [Event.command pos (byteEnd pos v) v ("0x" ++ hexByte v),
             Event.error pos (byteEnd pos v) "Unknown command"] ++
            frameEvents f p.1 cmdData respData).countP isCommandEv = 2 := by
  obtain ⟨hl, h256⟩ := table_lookup p hp
  have h1 : decodeStep t0
      ⟨.COMMAND, ⟨pos, false,
        encodeByte pos v ++ r :: f :: (encodeFrame f (p.1 :: cmdData) respData ++ rest)⟩⟩ =
      some (⟨.INITIAL, ⟨byteEnd pos v, false,
          r :: f :: (encodeFrame f (p.1 :: cmdData) respData ++ rest)⟩⟩,
        (bitEvents pos (bitsOfByte v) ++
            [Event.command pos (byteEnd pos v) v ("0x" ++ hexByte v)]) ++
          [Event.error pos (byteEnd pos v) "Unknown command"]) := by
    simp only [decodeStep, process_frame_unknown v hv hlv pos
      (r :: f :: (encodeFrame f (p.1 :: cmdData) respData ++ rest))]
  have h2 : decodeStep t0
      ⟨.INITIAL, ⟨byteEnd pos v, false,
        r :: f :: (encodeFrame f (p.1 :: cmdData) respData ++ rest)⟩⟩ =
      some (⟨.IDLE, ⟨r + t0.idle_min_samples, true,
        f :: (encodeFrame f (p.1 :: cmdData) respData ++ rest)⟩⟩, []) :=
    decodeStep_initial_low_idle t0 _ r f _ rfl rfl hgap
  have h3 : decodeStep t0
      ⟨.IDLE, ⟨r + t0.idle_min_samples, true,
        f :: (encodeFrame f (p.1 :: cmdData) respData ++ rest)⟩⟩ =
      some (⟨.COMMAND, ⟨f, false, encodeFrame f (p.1 :: cmdData) respData ++ rest⟩⟩, []) :=
    decodeStep_idle t0 _ f _ rfl rfl
  have h4 : decodeStep t0
      ⟨.COMMAND, ⟨f, false, encodeFrame f (p.1 :: cmdData) respData ++ rest⟩⟩ =
      some (⟨.IDLE, ⟨frameEnd f (p.1 :: cmdData) respData, true, rest⟩⟩,
        frameEvents f p.1 cmdData respData) := by
    simp only [decodeStep,
      process_frame_encodeFrame p.1 p.2 hl h256 cmdData respData hlen1 hlen2 hcd hrd f rest]
  have run1 := decodeRun_succ_of t0 0 _ _ _ _ _ h4 rfl
  have run2 := decodeRun_succ_of t0 1 _ _ _ _ _ h3 run1
  have run3 := decodeRun_succ_of t0 2 _ _ _ _ _ h2 run2
  have run4 := decodeRun_succ_of t0 3 _ _ _ _ _ h1 run3
  refine ⟨⟨frameEnd f (p.1 :: cmdData) respData, true, rest⟩, ?_, ?_, ?_⟩
  · rw [show (4 : Nat) = 3 + 1 from rfl, run4]
    simp [List.append_assoc]
  · simp [List.countP_append, List.countP_cons,
      countP_bitEvents isErrorEv (fun _ _ _ => rfl),
      (frameEvents_counts f p.1 cmdData respData).2.2.2.2, isErrorEv]
  · simp [List.countP_append, List.countP_cons,
      countP_bitEvents isCommandEv (fun _ _ _ => rfl),
      (frameEvents_counts f p.1 cmdData respData).1, isCommandEv]

/-- Witness for C6 at a concrete input: unknown opcode 0x99, rising edge
at sample 30, idle gap to sample 131, then a well-formed Info frame. -/
theorem c6_witness :
    ∃ sEnd,
      decodeRun t0 4
          ⟨.COMMAND, ⟨0, false,
            encodeByte 0 0x99 ++
              30 :: 131 :: (encodeFrame 131 (0x00 :: []) [1, 2, 3] ++ [])⟩⟩ =
        (⟨.IDLE, sEnd⟩,
          bitEvents 0 (bitsOfByte 0x99) ++
            [Event.command 0 (byteEnd 0 0x99) 0x99 ("0x" ++ hexByte 0x99),
             Event.error 0 (byteEnd 0 0x99) "Unknown command"] ++
            frameEvents 131 0x00 [] [1, 2, 3]) ∧
      (bitEvents 0 (bitsOfByte 0x99) ++
            [Event.command 0 (byteEnd 0 0x99) 0x99 ("0x" ++ hexByte 0x99),
             Event.error 0 (byteEnd 0 0x99) "Unknown command"] ++
            frameEvents 131 0x00 [] [1, 2, 3]).countP isErrorEv = 1 ∧
      (bitEvents 0 (bitsOfByte 0x99) ++
            [Event.command 0 (byteEnd 0 0x99) 0x99 ("0x" ++ hexByte 0x99),
             Event.error 0 (byteEnd 0 0x99) "Unknown command"] ++
            frameEvents 131 0x00 [] [1, 2, 3]).countP isCommandEv = 2 :=
  c6_unknown_opcode_resync 0x99 (by decide) (by decide)
    (0x00, CommandSpec.mk "Info" 1 3) (by decide)
    [] [1, 2, 3] rfl rfl (by intro x hx; cases hx) (by decide)
    0 30 131 [] (by decide) (by decide)

/-- `read_bit` never emits an error annotation. -/
theorem read_bit_errfree (t : Timing) (s : Wire) :
    (read_bit t s).events.countP isErrorEv = 0 := by
  rw [read_bit]
  dsimp only
  split
  · rfl
  · split
    · rfl
    · rfl

/-- `read_bits` never emits an error annotation. -/
theorem read_bits_errfree (t : Timing) :
    ∀ (n : Nat) (s : Wire) (acc : Nat),
      (read_bits t n s acc).events.countP isErrorEv = 0 := by
  intro n
  induction n with
  | zero => intro s acc; rfl
  | succ n ih =>
    intro s acc
    rw [read_bits]
    have hb := read_bit_errfree t s
    cases hrb : read_bit t s with
    | fail s' evs msg =>
      rw [hrb] at hb
      exact hb
    | ok s' evs b =>
      rw [hrb] at hb
      dsimp only [ReadResult.events] at hb
      have hr := ih s' ((acc <<< 1) ||| b)
      cases hrr : read_bits t n s' ((acc <<< 1) ||| b) with
      | fail s'' evs' msg =>
        rw [hrr] at hr
        dsimp only [ReadResult.events] at hr
        simp [hrr, ReadResult.events, List.countP_append, hb, hr]
      | ok s'' evs' v =>
        rw [hrr] at hr
        dsimp only [ReadResult.events] at hr
        simp [hrr, ReadResult.events, List.countP_append, hb, hr]

/-- `read_byte` never emits an error annotation. -/
theorem read_byte_errfree (t : Timing) (s : Wire) :
    (read_byte t s).events.countP isErrorEv = 0 := by
  rw [read_byte]
  have h := read_bits_errfree t 8 s 0
  cases hrr : read_bits t 8 s 0 with
  | fail s' evs msg => rw [hrr] at h; exact h
  | ok s' evs v => rw [hrr] at h; exact h

/-- The command-data loop never emits an error annotation. -/
theorem read_command_data_errfree (t : Timing) :
    ∀ (n : Nat) (s : Wire),
      (read_command_data t n s).events.countP isErrorEv = 0 := by
  intro n
  induction n with
  | zero => intro s; rfl
  | succ n ih =>
    intro s
    rw [read_command_data]
    have hb := read_byte_errfree t s
    cases hrb : read_byte t s with
    | fail s' evs msg => rw [hrb] at hb; exact hb
    | ok s' evs p =>
      rw [hrb] at hb
      dsimp only [ReadResult.events] at hb
      have hr := ih s'
      cases hrr : read_command_data t n s' with
      | fail s'' evs' msg =>
        rw [hrr] at hr
        dsimp only [ReadResult.events] at hr
        simp [hrr, ReadResult.events, List.countP_append, List.countP_cons, hb, hr, isErrorEv]
      | ok s'' evs' u =>
        rw [hrr] at hr
        dsimp only [ReadResult.events] at hr
        simp [hrr, ReadResult.events, List.countP_append, List.countP_cons, hb, hr, isErrorEv]

/-- The response loop never emits an error annotation. -/
theorem read_response_data_errfree (t : Timing) :
    ∀ (n : Nat) (s : Wire),
      (read_response_data t n s).events.countP isErrorEv = 0 := by
  intro n
  induction n with
  | zero => intro s; rfl
  | succ n ih =>
    intro s
    rw [read_response_data]
    have hb := read_byte_errfree t s
    cases hrb : read_byte t s with
    | fail s' evs msg => rw [hrb] at hb; exact hb
    | ok s' evs p =>
      rw [hrb] at hb
      dsimp only [ReadResult.events] at hb
      have hr := ih s'
      cases hrr : read_response_data t n s' with
      | fail s'' evs' msg =>
        rw [hrr] at hr
        dsimp only [ReadResult.events] at hr
        simp [hrr, ReadResult.events, List.countP_append, List.countP_cons, hb, hr, isErrorEv]
      | ok s'' evs' u =>
        rw [hrr] at hr
        dsimp only [ReadResult.events] at hr
        simp [hrr, ReadResult.events, List.countP_append, List.countP_cons, hb, hr, isErrorEv]

/-- `read_stop_bit` never emits an error annotation. -/
theorem read_stop_bit_errfree (width : Option Nat) (s : Wire) :
    (read_stop_bit width s).events.countP isErrorEv = 0 := by
  rw [read_stop_bit]
  cases waitEdge true s with
  | none => rfl
  | some s' => cases width <;> rfl

/-- `process_frame` never emits an error annotation itself: errors are
annotated only by the frame-boundary handler in `decode`. -/
theorem process_frame_errfree (t : Timing) (s : Wire) :
    (process_frame t s).events.countP isErrorEv = 0 := by
  rw [process_frame]
  have h1 := read_byte_errfree t s
  cases hb : read_byte t s with
  | fail s1 evs msg => rw [hb] at h1; exact h1
  | ok s1 evs1 p =>
    rw [hb] at h1
    dsimp only [ReadResult.events] at h1
    cases hlk : lookupCommand p.2 with
    | none =>
      simp [hlk, ReadResult.events, List.countP_append, List.countP_cons, h1, isErrorEv]
    | some spec =>
      have h2 := read_command_data_errfree t (spec.command_len - 1) s1
      cases hcd : read_command_data t (spec.command_len - 1) s1 with
      | fail s2 evs2 msg =>
        rw [hcd] at h2
        dsimp only [ReadResult.events] at h2
        simp [hlk, hcd, ReadResult.events, List.countP_append, List.countP_cons,
          h1, h2, isErrorEv]
      | ok s2 evs2 u =>
        rw [hcd] at h2
        dsimp only [ReadResult.events] at h2
        have h3 := read_stop_bit_errfree (some t.bit_command_samples) s2
        cases hsb : read_stop_bit (some t.bit_command_samples) s2 with
        | fail s3 evs3 msg =>
          rw [hsb] at h3
          dsimp only [ReadResult.events] at h3
          simp [hlk, hcd, hsb, ReadResult.events, List.countP_append, List.countP_cons,
            h1, h2, h3, isErrorEv]
        | ok s3 evs3 u3 =>
          rw [hsb] at h3
          dsimp only [ReadResult.events] at h3
          have h4 := read_response_data_errfree t spec.response_len
            (waitEdgeOrSkip false t.response_timeout_samples s3).1
          cases hrd : read_response_data t spec.response_len
              (waitEdgeOrSkip false t.response_timeout_samples s3).1 with
          | fail s4 evs4 msg =>
            rw [hrd] at h4
            dsimp only [ReadResult.events] at h4
            by_cases hw : (waitEdgeOrSkip false t.response_timeout_samples s3).2 = true <;>
              simp [hlk, hcd, hsb, hrd, hw, ReadResult.events, List.countP_append,
                List.countP_cons, h1, h2, h3, h4, isErrorEv]
          | ok s4 evs4 u4 =>
            rw [hrd] at h4
            dsimp only [ReadResult.events] at h4
            have h5 := read_stop_bit_errfree (some t.bit_response_samples) s4
            cases hsb2 : read_stop_bit (some t.bit_response_samples) s4 with
            | fail s5 evs5 msg =>
              rw [hsb2] at h5
              dsimp only [ReadResult.events] at h5
              by_cases hw : (waitEdgeOrSkip false t.response_timeout_samples s3).2 = true <;>
                simp [hlk, hcd, hsb, hrd, hsb2, hw, ReadResult.events, List.countP_append,
                  List.countP_cons, h1, h2, h3, h4, h5, isErrorEv]
            | ok s5 evs5 u5 =>
              rw [hsb2] at h5
              dsimp only [ReadResult.events] at h5
              by_cases hw : (waitEdgeOrSkip false t.response_timeout_samples s3).2 = true <;>
                simp [hlk, hcd, hsb, hrd, hsb2, hw, ReadResult.events, List.countP_append,
                  List.countP_cons, h1, h2, h3, h4, h5, isErrorEv]

/-- C3: every failure raised inside the COMMAND state is caught at the
frame boundary and produces exactly one `error` event, whose span runs
from the frame's start sample to the current sample and which carries
the failure's description; afterwards the state machine is in INITIAL
(not IDLE).  No failure is silently dropped: the iteration's full
annotation list contains exactly one `error` event. -/
theorem c3_command_errors_caught (t : Timing) (s s' : Wire) (evs : List Event) (msg : String)
    (h : process_frame t s = .fail s' evs msg) :
    decodeStep t ⟨.COMMAND, s⟩ =
      some (⟨.INITIAL, s'⟩, evs ++ [Event.error s.pos s'.pos msg]) ∧
    (evs ++ [Event.error s.pos s'.pos msg]).countP isErrorEv = 1 := by
  have hfree := process_frame_errfree t s
  rw [h] at hfree
  dsimp only [ReadResult.events] at hfree
  constructor
  · simp only [decodeStep, h]
  · simp [List.countP_append, List.countP_cons, hfree, isErrorEv]

/-- Witness for C3 at a concrete input: a wire with no edges at all, so
the opcode read times out at sample 10. -/
theorem c3_witness :
    decodeStep t0 ⟨.COMMAND, ⟨0, false, []⟩⟩ =
      some (⟨.INITIAL, ⟨10, false, []⟩⟩,
        [] ++ [Event.error (Wire.mk 0 false []).pos (Wire.mk 10 false []).pos "Bit timeout"]) ∧
    ([] ++ [Event.error (Wire.mk 0 false []).pos (Wire.mk 10 false []).pos
        "Bit timeout"]).countP isErrorEv = 1 :=
  c3_command_errors_caught t0 ⟨0, false, []⟩ ⟨10, false, []⟩ [] "Bit timeout" (by decide)

/-- C1: for every low-pulse duration measured by `read_bit` (the rising
edge at `r` minus the starting sample, both transitions within the bit
timeout), the returned bit is 0 if and only if the duration is strictly
greater than the bit midpoint, and 1 otherwise; a duration exactly equal
to the midpoint is classified as 1. -/
theorem c1_bit_classification (t : Timing) (s : Wire) (r f : Nat) (rest : List Nat)
    (hl : s.level = false) (he : s.edges = r :: f :: rest)
    (hr : r ≤ s.pos + t.bit_timeout_samples) (hf : f ≤ r + t.bit_timeout_samples) :
    ∃ s' evs b, read_bit t s = .ok s' evs b ∧
      (b = 0 ↔ r - s.pos > t.bit_midpoint_samples) ∧
      (r - s.pos ≤ t.bit_midpoint_samples → b = 1) := by
  have hw1 : waitEdgeOrSkip true t.bit_timeout_samples s = (⟨r, true, f :: rest⟩, true) := by
    rw [waitEdgeOrSkip, hl, he]
    exact waitAux_edge true (s.pos + t.bit_timeout_samples) false r (f :: rest)
      (by omega) rfl
  have hw2 : waitEdgeOrSkip false t.bit_timeout_samples ⟨r, true, f :: rest⟩ =
      (⟨f, false, rest⟩, false) := by
    rw [waitEdgeOrSkip]
    exact waitAux_edge false (r + t.bit_timeout_samples) true f rest (by omega) rfl
  have heq : read_bit t s =
      .ok ⟨f, false, rest⟩
        [Event.bit s.pos f (if r - s.pos > t.bit_midpoint_samples then 0 else 1)]
        (if r - s.pos > t.bit_midpoint_samples then 0 else 1) := by
    rw [read_bit]
    simp only [hw1, hw2]
    norm_num
  refine ⟨_, _, _, heq, ?_, ?_⟩
  · by_cases hc : r - s.pos > t.bit_midpoint_samples <;> simp [hc]
  · intro hle
    have : ¬ r - s.pos > t.bit_midpoint_samples := by omega
    simp [this]

/-- Witness for C1 at a concrete input: a 3-sample low pulse against the
1 MHz midpoint of 2 samples, classified as 0. -/
theorem c1_witness :
    ∃ s' evs b, read_bit t0 ⟨0, false, [3, 4]⟩ = .ok s' evs b ∧
      (b = 0 ↔ 3 - (Wire.mk 0 false [3, 4]).pos > t0.bit_midpoint_samples) ∧
      (3 - (Wire.mk 0 false [3, 4]).pos ≤ t0.bit_midpoint_samples → b = 1) :=
  c1_bit_classification t0 ⟨0, false, [3, 4]⟩ 3 4 [] rfl rfl (by decide) (by decide)

/-- One bit annotation is emitted per encoded bit cell. -/
theorem bitEvents_length : ∀ (bs : List Nat) (pos : Nat), (bitEvents pos bs).length = bs.length
  | [], _ => rfl
  | b :: bs, pos => by
    simp [bitEvents, bitEvents_length bs (bitEnd pos b)]

/-- C4: `read_byte` performs exactly 8 bit reads (one `bit` annotation
each) and assembles them most-significant bit first, so presenting any
byte value's 8 bits MSB-first (`bitsOfByte`) to `read_byte` yields the
value back. -/
theorem c4_byte_roundtrip :
    ∀ v < 256,
      read_byte t0 ⟨0, false, encodeByte 0 v⟩ =
        .ok ⟨byteEnd 0 v, false, []⟩ (bitEvents 0 (bitsOfByte v)) (0, v) ∧
      (bitEvents 0 (bitsOfByte v)).length = 8 := by
  intro v hv
  constructor
  · have h := read_byte_encodeByte 0 v hv []
    simpa using h
  · rw [bitEvents_length, bitsOfByte_length]

/-- Witness for C4 at a concrete input: byte value 0xA5. -/
theorem c4_witness :
    read_byte t0 ⟨0, false, encodeByte 0 0xA5⟩ =
      .ok ⟨byteEnd 0 0xA5, false, []⟩ (bitEvents 0 (bitsOfByte 0xA5)) (0, 0xA5) ∧
    (bitEvents 0 (bitsOfByte 0xA5)).length = 8 :=
  c4_byte_roundtrip 0xA5 (by decide)

/-- `read_bit` when the rising edge misses the bit timeout: the skip
branch matches with the pin still low and the bit-timeout failure is
raised. -/
theorem read_bit_fail_first (t : Timing) (s : Wire) (r f : Nat) (rest : List Nat)
    (hl : s.level = false) (he : s.edges = r :: f :: rest)
    (h1 : s.pos + t.bit_timeout_samples < r) :
    read_bit t s =
      .fail ⟨s.pos + t.bit_timeout_samples, false, r :: f :: rest⟩ [] "Bit timeout" := by
  have hw1 : waitEdgeOrSkip true t.bit_timeout_samples s =
      (⟨s.pos + t.bit_timeout_samples, false, r :: f :: rest⟩, false) := by
    rw [waitEdgeOrSkip, hl, he]
    exact waitAux_skip true (s.pos + t.bit_timeout_samples) false r (f :: rest) h1
  rw [read_bit]
  simp only [hw1]
  norm_num

/-- `read_bit` when the rising edge is in time but the falling edge
misses the bit timeout: the second skip branch matches with the pin
still high and the bit-timeout failure is raised. -/
theorem read_bit_fail_second (t : Timing) (s : Wire) (r f : Nat) (rest : List Nat)
    (hl : s.level = false) (he : s.edges = r :: f :: rest)
    (h1 : r ≤ s.pos + t.bit_timeout_samples) (h2 : r + t.bit_timeout_samples < f) :
    read_bit t s = .fail ⟨r + t.bit_timeout_samples, true, f :: rest⟩ [] "Bit timeout" := by
  have hw1 : waitEdgeOrSkip true t.bit_timeout_samples s = (⟨r, true, f :: rest⟩, true) := by
    rw [waitEdgeOrSkip, hl, he]
    exact waitAux_edge true (s.pos + t.bit_timeout_samples) false r (f :: rest)
      (by omega) rfl
  have hw2 : waitEdgeOrSkip false t.bit_timeout_samples ⟨r, true, f :: rest⟩ =
      (⟨r + t.bit_timeout_samples, true, f :: rest⟩, true) := by
    rw [waitEdgeOrSkip]
    exact waitAux_skip false (r + t.bit_timeout_samples) true f rest h2
  rw [read_bit]
  simp only [hw1, hw2]
  norm_num

/-- `read_bit` when both transitions arrive within the bit timeout:
succeeds with the classified bit. -/
theorem read_bit_ok_within (t : Timing) (s : Wire) (r f : Nat) (rest : List Nat)
    (hl : s.level = false) (he : s.edges = r :: f :: rest)
    (h1 : r ≤ s.pos + t.bit_timeout_samples) (h2 : f ≤ r + t.bit_timeout_samples) :
    read_bit t s =
      .ok ⟨f, false, rest⟩
        [Event.bit s.pos f (if r - s.pos > t.bit_midpoint_samples then 0 else 1)]
        (if r - s.pos > t.bit_midpoint_samples then 0 else 1) := by
  have hw1 : waitEdgeOrSkip true t.bit_timeout_samples s = (⟨r, true, f :: rest⟩, true) := by
    rw [waitEdgeOrSkip, hl, he]
    exact waitAux_edge true (s.pos + t.bit_timeout_samples) false r (f :: rest)
      (by omega) rfl
  have hw2 : waitEdgeOrSkip false t.bit_timeout_samples ⟨r, true, f :: rest⟩ =
      (⟨f, false, rest⟩, false) := by
    rw [waitEdgeOrSkip]
    exact waitAux_edge false (r + t.bit_timeout_samples) true f rest (by omega) rfl
  rw [read_bit]
  simp only [hw1, hw2]
  norm_num

/-- C5: `read_bit` fails with the bit-timeout error if and only if
either the low-to-high transition (rising edge at `r`) or the subsequent
high-to-low transition (falling edge at `f`) does not occur within
`bit_timeout` samples of the start of its wait; when both transitions
are within the bound, it returns a bit value without error. -/
theorem c5_bit_timeout_iff (t : Timing) (s : Wire) (r f : Nat) (rest : List Nat)
    (hl : s.level = false) (he : s.edges = r :: f :: rest) :
    ((∃ s' evs, read_bit t s = .fail s' evs "Bit timeout") ↔
      (s.pos + t.bit_timeout_samples < r ∨ r + t.bit_timeout_samples < f)) ∧
    (r ≤ s.pos + t.bit_timeout_samples → f ≤ r + t.bit_timeout_samples →
      ∃ s' evs b, read_bit t s = .ok s' evs b) := by
  constructor
  · constructor
    · intro hfail
      by_contra hcon
      push_neg at hcon
      obtain ⟨hc1, hc2⟩ := hcon
      obtain ⟨s', evs, hf'⟩ := hfail
      rw [read_bit_ok_within t s r f rest hl he (by omega) (by omega)] at hf'
      exact ReadResult.noConfusion hf'
    · intro hor
      by_cases h1 : s.pos + t.bit_timeout_samples < r
      · exact ⟨_, _, read_bit_fail_first t s r f rest hl he h1⟩
      · have h2 : r + t.bit_timeout_samples < f := by
          rcases hor with h | h
          · exact absurd h h1
          · exact h
        exact ⟨_, _, read_bit_fail_second t s r f rest hl he (by omega) h2⟩
  · intro hr2 hf2
    exact ⟨_, _, _, read_bit_ok_within t s r f rest hl he hr2 hf2⟩

/-- Witness for C5 at a concrete input: a wire whose falling edge comes
12 samples after the rising edge, beyond the 10-sample bit timeout. -/
theorem c5_witness :
    ((∃ s' evs, read_bit t0 ⟨0, false, [3, 15]⟩ = .fail s' evs "Bit timeout") ↔
      ((Wire.mk 0 false [3, 15]).pos + t0.bit_timeout_samples < 3 ∨
        3 + t0.bit_timeout_samples < 15)) ∧
    (3 ≤ (Wire.mk 0 false [3, 15]).pos + t0.bit_timeout_samples →
      15 ≤ 3 + t0.bit_timeout_samples →
      ∃ s' evs b, read_bit t0 ⟨0, false, [3, 15]⟩ = .ok s' evs b) :=
  c5_bit_timeout_iff t0 ⟨0, false, [3, 15]⟩ 3 15 [] rfl rfl

/-- C7: in the INITIAL state (line already high, next falling edge at
`f`), the decoder transitions to IDLE only when the line stays high
past the full `idle_min` window (falling edge strictly beyond the
deadline); a falling edge at or before the deadline leaves it in
INITIAL to retry, so decoding never begins mid-frame. -/
theorem c7_idle_debounce (t : Timing) (s : Wire) (f : Nat) (rest : List Nat)
    (hl : s.level = true) (he : s.edges = f :: rest) :
    (f ≤ s.pos + t.idle_min_samples →
      decodeStep t ⟨.INITIAL, s⟩ = some (⟨.INITIAL, ⟨f, false, rest⟩⟩, [])) ∧
    (s.pos + t.idle_min_samples < f →
      decodeStep t ⟨.INITIAL, s⟩ =
        some (⟨.IDLE, ⟨s.pos + t.idle_min_samples, true, f :: rest⟩⟩, [])) ∧
    (∀ (d : DecState) (evs : List Event),
      decodeStep t ⟨.INITIAL, s⟩ = some (d, evs) → d.state = .IDLE →
      s.pos + t.idle_min_samples < f) := by
  refine ⟨?_, ?_, ?_⟩
  · intro h
    exact decodeStep_initial_retry t s f rest hl he (by omega)
  · intro h
    exact decodeStep_initial_idle t s f rest hl he h
  · intro d evs hstep hidle
    by_contra hcon
    push_neg at hcon
    rw [decodeStep_initial_retry t s f rest hl he (by omega)] at hstep
    have hd : (⟨.INITIAL, ⟨f, false, rest⟩⟩ : DecState) = d := by
      simpa using congrArg (fun o => (o.getD (⟨.INITIAL, s⟩, [])).1) hstep
    rw [← hd] at hidle
    exact State.noConfusion hidle

/-- Witness for C7 at a concrete input: the line falls 50 samples after
the high was seen, short of the 100-sample idle minimum, so the decoder
stays in INITIAL. -/
theorem c7_witness :
    (50 ≤ (Wire.mk 0 true [50]).pos + t0.idle_min_samples →
      decodeStep t0 ⟨.INITIAL, ⟨0, true, [50]⟩⟩ =
        some (⟨.INITIAL, ⟨50, false, []⟩⟩, [])) ∧
    ((Wire.mk 0 true [50]).pos + t0.idle_min_samples < 50 →
      decodeStep t0 ⟨.INITIAL, ⟨0, true, [50]⟩⟩ =
        some (⟨.IDLE, ⟨(Wire.mk 0 true [50]).pos + t0.idle_min_samples, true, [50]⟩⟩, [])) ∧
    (∀ (d : DecState) (evs : List Event),
      decodeStep t0 ⟨.INITIAL, ⟨0, true, [50]⟩⟩ = some (d, evs) → d.state = .IDLE →
      (Wire.mk 0 true [50]).pos + t0.idle_min_samples < 50) :=
  c7_idle_debounce t0 ⟨0, true, [50]⟩ 50 [] rfl rfl

/-- C8 (amended): the decode entry guard raises the configuration error
if and only if the sample rate is zero or absent; in that case the loop
is halted before any event is emitted.  (The original claim also
required a failure when the derived idle/timeout windows come out as
zero at extremely low sample rates; `c8_counterexample` shows the code
accepts those silently.) -/
theorem c8_configerror_iff (samplerate : Option Nat) (t : Timing) (fuel : Nat) (d : DecState) :
    (∃ msg, decode samplerate t fuel d = .error msg) ↔
      (samplerate = none ∨ samplerate = some 0) := by
  cases samplerate with
  | none => exact ⟨fun _ => Or.inl rfl, fun _ => ⟨_, rfl⟩⟩
  | some n =>
    cases n with
    | zero => exact ⟨fun _ => Or.inr rfl, fun _ => ⟨_, rfl⟩⟩
    | succ n =>
      constructor
      · intro h
        obtain ⟨msg, hmsg⟩ := h
        exact Except.noConfusion hmsg
      · intro h
        rcases h with h | h
        · exact Option.noConfusion h
        · exact absurd (Option.some.inj h) (by omega)

/-- Counterexample to C8 as stated: at a sample rate of 1000 Hz the
derived idle, bit-timeout and response-timeout windows are all zero,
yet the decode guard passes (no configuration failure is raised). -/
theorem c8_counterexample :
    decode (some 1000) (timingFor 1000) 0 ⟨.INITIAL, ⟨0, true, []⟩⟩ =
      .ok (⟨.INITIAL, ⟨0, true, []⟩⟩, []) ∧
    (timingFor 1000).idle_min_samples = 0 ∧
    (timingFor 1000).bit_timeout_samples = 0 ∧
    (timingFor 1000).response_timeout_samples = 0 := by
  refine ⟨rfl, rfl, rfl, rfl⟩

/-- Witness for the amended C8: the guard rejects a configured sample rate of 0. -/
theorem c8_witness :
    (∃ msg, decode (some 0) t0 5 ⟨.INITIAL, ⟨0, true, []⟩⟩ = .error msg) ↔
      ((some 0 : Option Nat) = none ∨ (some 0 : Option Nat) = some 0) :=
  c8_configerror_iff (some 0) t0 5 ⟨.INITIAL, ⟨0, true, []⟩⟩

/-- C9 (amended): `metadata` on the samplerate key stores the new sample
rate and recomputes the derived timing constants, but leaves the decoder
state unchanged; the state is not reset to INITIAL. -/
theorem c9_metadata_preserves_state (d : DecoderVars) (value : Nat) :
    (metadata d SRD_CONF_SAMPLERATE value).state = d.state ∧
    (metadata d SRD_CONF_SAMPLERATE value).samplerate = some value ∧
    (metadata d SRD_CONF_SAMPLERATE value).timing = some (timingFor value) := by
  refine ⟨?_, ?_, ?_⟩ <;> simp [metadata]

/-- Counterexample to C9 as stated: a decoder in IDLE state that
receives a samplerate reconfiguration is still in IDLE afterwards, not
INITIAL. -/
theorem c9_counterexample :
    (metadata ⟨State.IDLE, some 24000000, some (timingFor 24000000)⟩
        SRD_CONF_SAMPLERATE 1000000).state ≠ State.INITIAL := by
  decide

/-- A single `read_bit` value is always 0 or 1. -/
theorem read_bit_zero_or_one (t : Timing) (s s' : Wire) (evs : List Event) (b : Nat)
    (h : read_bit t s = .ok s' evs b) : b = 0 ∨ b = 1 := by
  rw [read_bit] at h
  dsimp only at h
  split at h
  · exact ReadResult.noConfusion h
  · split at h
    · exact ReadResult.noConfusion h
    · have hb : b = if (waitEdgeOrSkip true t.bit_timeout_samples s).1.pos - s.pos >
          t.bit_midpoint_samples then 0 else 1 := by
        cases h
        rfl
      rw [hb]
      split
      · exact Or.inl rfl
      · exact Or.inr rfl

/-- One accumulation step of `read_byte` stays below the doubled
power-of-two bound. -/
theorem shiftLeft_or_lt_two_pow (acc b m : Nat) (hacc : acc < 2 ^ m) (hb : b ≤ 1) :
    (acc <<< 1) ||| b < 2 ^ (m + 1) := by
  apply Nat.lt_pow_two_of_testBit
  intro i hi
  rw [Nat.testBit_or, Nat.testBit_shiftLeft]
  have h1 : Nat.testBit acc (i - 1) = false := by
    apply Nat.testBit_lt_two_pow
    calc acc < 2 ^ m := hacc
      _ ≤ 2 ^ (i - 1) := Nat.pow_le_pow_right (by norm_num) (by omega)
  have h2 : Nat.testBit b i = false := by
    apply Nat.testBit_lt_two_pow
    calc b < 2 := by omega
      _ = 2 ^ 1 := by norm_num
      _ ≤ 2 ^ i := Nat.pow_le_pow_right (by norm_num) (by omega)
  rw [h1, h2]
  simp

/-- The `read_bits` accumulator is bounded by the power of two counting
the accumulated bits. -/
theorem read_bits_bound (t : Timing) :
    ∀ (n : Nat) (s : Wire) (acc m : Nat), acc < 2 ^ m →
      ∀ (s' : Wire) (evs : List Event) (v : Nat),
        read_bits t n s acc = .ok s' evs v → v < 2 ^ (m + n) := by
  intro n
  induction n with
  | zero =>
    intro s acc m hacc s' evs v h
    cases h
    exact hacc
  | succ n ih =>
    intro s acc m hacc s' evs v h
    rw [read_bits] at h
    cases hrb : read_bit t s with
    | fail s1 evs1 msg =>
      rw [hrb] at h
      exact ReadResult.noConfusion h
    | ok s1 evs1 b =>
      rw [hrb] at h
      dsimp only at h
      have hb : b ≤ 1 := by
        rcases read_bit_zero_or_one t s s1 evs1 b hrb with h0 | h1 <;> omega
      have hstep : (acc <<< 1) ||| b < 2 ^ (m + 1) :=
        shiftLeft_or_lt_two_pow acc b m hacc hb
      cases hrr : read_bits t n s1 ((acc <<< 1) ||| b) with
      | fail s2 evs2 msg =>
        rw [hrr] at h
        exact ReadResult.noConfusion h
      | ok s2 evs2 v2 =>
        rw [hrr] at h
        dsimp only at h
        have hv2 : v2 < 2 ^ (m + 1 + n) := ih s1 ((acc <<< 1) ||| b) (m + 1) hstep s2 evs2 v2 hrr
        have hv : v = v2 := by
          cases h
          rfl
        rw [hv]
        have : m + 1 + n = m + (n + 1) := by omega
        rw [← this]
        exact hv2

/-- C10: for every signal input, `read_bit` returns only 0 or 1, and
consequently `read_byte` always returns a byte value in 0..255 (the
8-step shift-or accumulation starting from 0 cannot exceed 8 bits). -/
theorem c10_bit_byte_ranges :
    (∀ (t : Timing) (s s' : Wire) (evs : List Event) (b : Nat),
      read_bit t s = .ok s' evs b → b = 0 ∨ b = 1) ∧
    (∀ (t : Timing) (s s' : Wire) (evs : List Event) (p : Nat × Nat),
      read_byte t s = .ok s' evs p → p.2 ≤ 255) := by
  constructor
  · exact read_bit_zero_or_one
  · intro t s s' evs p h
    rw [read_byte] at h
    cases hrr : read_bits t 8 s 0 with
    | fail s1 evs1 msg =>
      rw [hrr] at h
      exact ReadResult.noConfusion h
    | ok s1 evs1 v =>
      rw [hrr] at h
      dsimp only at h
      have hv : v < 2 ^ (0 + 8) :=
        read_bits_bound t 8 s 0 0 (by norm_num) s1 evs1 v hrr
      have hp : p.2 = v := by
        cases h
        rfl
      rw [hp]
      omega

/-- Witness for C10 at concrete inputs: a concrete successful bit read
(value 0) and a concrete successful byte read (value 0xA5 ≤ 255). -/
theorem c10_witness :
    ((0 : Nat) = 0 ∨ (0 : Nat) = 1) ∧ ((0, 0xA5) : Nat × Nat).2 ≤ 255 :=
  ⟨c10_bit_byte_ranges.1 t0 ⟨0, false, [3, 4]⟩ ⟨4, false, []⟩ [Event.bit 0 4 0] 0 (by decide),
   c10_bit_byte_ranges.2 t0 ⟨0, false, encodeByte 0 0xA5⟩ ⟨byteEnd 0 0xA5, false, []⟩
     (bitEvents 0 (bitsOfByte 0xA5)) (0, 0xA5) (by decide)⟩

end Joybus
